import Mathlib

set_option maxRecDepth 8000

/-!
Verification of the BasicTS metrics-aggregation and reporting engine
(`collect_metrics.py` and the horizon-extraction part of
`wandb_visualize_test_metrics.py`).

The Python code is shallowly embedded: JSON values become an inductive
`JVal`, Python dict operations that may raise become `Except PyErr`
computations, the filesystem scan becomes a fold over a list of
`FileEntry` records (one per directory containing `test_metrics.json`,
carrying the relative path segments and the read/parse outcome), and
Python floats are idealized as rationals (`Rat`).  Python's stable
`sorted`/`list.sort` is modelled by `List.insertionSort`, which is a
stable sort.
-/

/-! ### JSON values and Python-style dynamic operations -/

/-- A parsed JSON value, as produced by `json.load`. -/
inductive JVal where
  | null
  | bool (b : Bool)
  | num (q : Rat)
  | str (s : String)
  | arr (xs : List JVal)
  | obj (kvs : List (String × JVal))

/-- Python exceptions that the embedded code can raise. -/
inductive PyErr where
  | ioError (msg : String)
  | attributeError
  | typeError
  | valueError
deriving DecidableEq

/-- Message text for a caught exception (used in warning lines). -/
def errText : PyErr → String
  | .ioError msg => msg
  | .attributeError => "AttributeError"
  | .typeError => "TypeError"
  | .valueError => "ValueError"

/-- Python `v.get(key, default)`: succeeds on dicts, raises
`AttributeError` on any non-dict value. -/
def pyGetD (v : JVal) (key : String) (dflt : JVal) : Except PyErr JVal :=
  match v with
  | .obj kvs => .ok (((kvs.find? (fun p => p.1 = key)).map (·.2)).getD dflt)
  | _ => .error .attributeError

/-- Python `v.get(key, None)` where the result is kept as optional:
succeeds on dicts, raises `AttributeError` on any non-dict value. -/
def pyGetOpt (v : JVal) (key : String) : Except PyErr (Option JVal) :=
  match v with
  | .obj kvs => .ok ((kvs.find? (fun p => p.1 = key)).map (·.2))
  | _ => .error .attributeError

/-- Python `v.items()`: succeeds on dicts, raises `AttributeError`
otherwise. -/
def pyItems (v : JVal) : Except PyErr (List (String × JVal)) :=
  match v with
  | .obj kvs => .ok kvs
  | _ => .error .attributeError

/-- Python `isinstance(v, (int, float))` together with the numeric value:
JSON numbers are ints/floats, and Python `bool` is a subclass of `int`
(`True = 1`, `False = 0`); everything else is not a number. -/
def asPyNumber : JVal → Option Rat
  | .num q => some q
  | .bool b => some (if b then 1 else 0)
  | _ => none

/-! ### Decimal formatting (idealizing Python floats as rationals)

Python's `f"{v:.2f}"` rounds the float to the requested number of
decimal digits, with exact ties resolved to even.  We idealize the
binary floating-point value as the rational it denotes. -/

/-- One decimal digit as a character. -/
def digitChar (n : Nat) : Char := Char.ofNat (48 + n)

/-- Decimal rendering of a natural number (fuel-based so that it reduces
definitionally). -/
def natStrAux : Nat → Nat → List Char
  | 0, _ => []
  | fuel + 1, n =>
    if n < 10 then [digitChar n]
    else natStrAux fuel (n / 10) ++ [digitChar (n % 10)]

/-- Decimal rendering of a natural number. -/
def natStr (n : Nat) : String := String.mk (natStrAux (n + 1) n)

/-- Round a rational to the nearest integer, ties to even. -/
def roundHalfEven (q : Rat) : Int :=
  let f : Int := q.floor
  let frac : Rat := q - (f : Rat)
  if frac < 1/2 then f
  else if 1/2 < frac then f + 1
  else if f % 2 = 0 then f else f + 1

/-- Left-pad a numeral string with zeros up to `n` characters. -/
def padZeros (n : Nat) (s : String) : String :=
  String.mk (List.replicate (n - s.length) '0') ++ s

/-- Python `f"{q:.prec f}"` on the idealized rational value. -/
def formatFixed (prec : Nat) (q : Rat) : String :=
  let scaled : Int := roundHalfEven (q * (10 : Rat) ^ prec)
  let p : Nat := 10 ^ prec
  let sign : String := if scaled < 0 then "-" else ""
  let a : Nat := scaled.natAbs
  if prec = 0 then sign ++ natStr a
  else sign ++ natStr (a / p) ++ "." ++ padZeros prec (natStr (a % p))

/-! ### Further Python builtins used by the scripts -/

/-- Digit-string to number, `none` if empty or not all ASCII digits. -/
def digitsToNat (cs : List Char) : Option Nat :=
  if cs = [] then none
  else if cs.all (fun c => c.isDigit) then
    some (cs.foldl (fun a c => a * 10 + (c.toNat - 48)) 0)
  else none

/-- Python `int(s)` on a string: strip whitespace, optional sign, then
ASCII decimal digits.  (Python additionally accepts underscores between
digits and non-ASCII digits; neither can occur in the tokens this code
feeds to `int`, which come from splitting a key on `"_"`.) -/
def pyIntOfString (s : String) : Option Int :=
  match s.trim.data with
  | '-' :: rest => (digitsToNat rest).map (fun n => -(n : Int))
  | '+' :: rest => (digitsToNat rest).map (fun n => (n : Int))
  | cs => (digitsToNat cs).map (fun n => (n : Int))

/-- Python `float(s)` on a plain decimal literal: optional sign, digits,
optional fractional part.  (Exponents, `inf` and `nan` are not modelled;
no verified claim reaches them.) -/
def parseDecimal (s : String) : Option Rat :=
  let core : List Char → Option Rat := fun cs =>
    match cs.splitOn '.' with
    | [ip] => (digitsToNat ip).map (fun n => (n : Rat))
    | [ip, fp] =>
      if ip = [] ∧ fp = [] then none
      else
        let ipn := if ip = [] then some 0 else digitsToNat ip
        let fpn := if fp = [] then some 0 else digitsToNat fp
        match ipn, fpn with
        | some i, some f => some ((i : Rat) + (f : Rat) / ((10 : Rat) ^ fp.length))
        | _, _ => none
    | _ => none
  match s.trim.data with
  | '-' :: rest => (core rest).map (fun q => -q)
  | '+' :: rest => core rest
  | cs => core cs

/-- Python `str(x)` on a JSON-derived value.  Exact on strings, booleans
and `None`; numbers and containers are rendered approximately (no
verified claim depends on those cases, which are only reachable through
`format_mape` on a malformed metric value). -/
def pyStr : JVal → String
  | .str s => s
  | .bool b => if b then "True" else "False"
  | .null => "None"
  | .num q =>
    if q.den = 1 then
      (if q.num < 0 then "-" else "") ++ natStr q.num.natAbs ++ ".0"
    else (if q.num < 0 then "-" else "") ++ natStr q.num.natAbs ++ "/" ++ natStr q.den
  | .arr _ => "[...]"
  | .obj _ => "(dict)"

/-- Python `float(x)` on a JSON-derived value: numbers and booleans
convert, numeric strings parse, everything else raises. -/
def pyFloat : JVal → Except PyErr Rat
  | .num q => .ok q
  | .bool b => .ok (if b then 1 else 0)
  | .str s =>
    match parseDecimal s with
    | some q => .ok q
    | none => .error .valueError
  | _ => .error .typeError

/-! ### String padding and the fixed-width grid renderer

`print_summary_table` and `print_detail_tables` both contain the same
local helpers `border_line` and `format_row`; they are embedded once
here and instantiated with each table's column widths. -/

/-- `n` copies of one character, as a string. -/
def srep (c : Char) (n : Nat) : String := String.mk (List.replicate n c)

/-- Python `s.ljust(w)` (never truncates). -/
def pyLjust (s : String) (w : Nat) : String := s ++ srep ' ' (w - s.length)

/-- Python `s.rjust(w)` (never truncates). -/
def pyRjust (s : String) (w : Nat) : String := srep ' ' (w - s.length) ++ s

/-- Python `s.center(w)` (never truncates); for odd margins CPython puts
the extra space on the left exactly when the width is odd. -/
def pyCenter (s : String) (w : Nat) : String :=
  let marg := w - s.length
  let left := marg / 2 + (if marg % 2 = 1 ∧ w % 2 = 1 then 1 else 0)
  srep ' ' left ++ s ++ srep ' ' (marg - left)

/-- Per-column alignment tag, as passed to `format_row`. -/
inductive Align where
  | left
  | right
  | center
deriving DecidableEq

/-- One padded cell, dispatching on the alignment tag. -/
def padCell (a : Align) (text : String) (w : Nat) : String :=
  match a with
  | .left => pyLjust text w
  | .right => pyRjust text w
  | .center => pyCenter text w

/-- The cell loop of `format_row`: each cell contributes
`" " ++ padded ++ " |"`. -/
def formatRowAux : List String → List Nat → List Align → String
  | c :: cs, w :: ws, a :: al => " " ++ padCell a c w ++ " |" ++ formatRowAux cs ws al
  | _, _, _ => ""

/-- `format_row(cells, aligns)` from the source: a `"|"` followed by one
padded segment per cell, each cell read against its column width. -/
def format_row (col_widths : List Nat) (cells : List String) (aligns : List Align) : String :=
  "|" ++ formatRowAux cells col_widths aligns

/-- Python `"+".join(parts)`. -/
def joinPlus : List String → String
  | [] => ""
  | [s] => s
  | s :: rest => s ++ "+" ++ joinPlus rest

/-- `border_line()` from the source:
`"+" + "+".join("-" * (w + 2) for w in col_widths) + "+"`. -/
def border_line (col_widths : List Nat) : String :=
  "+" ++ joinPlus (col_widths.map (fun w => srep '-' (w + 2))) ++ "+"

/-! ### The data model: runs, repository, file entries -/

/-- The aggregation key `(model, dataset)`. -/
abbrev AggKey := String × String

/-- One parsed run, mirroring the `run_dict` built in `collect_all_runs`
(`MAE`, `RMSE`, `MAPE`, `path`, `setting`, `time`, `timestamp`).  The
metric fields hold whatever JSON value sat under the key, or `none` when
the key was absent. -/
structure Run where
  MAE : Option JVal
  RMSE : Option JVal
  MAPE : Option JVal
  path : String
  setting : String
  time : String
  timestamp : Rat

/-- One directory that contains a `test_metrics.json`, as encountered by
`os.walk`: the relative path segments from the root, the outcome of
opening and JSON-parsing the file, and the file metadata. -/
structure FileEntry where
  relParts : List String
  content : Except PyErr JVal
  path : String
  timeStr : String
  timestamp : Rat

/-- Python `s.split(sep)` for a one-character separator: split at every
occurrence, keeping empty pieces. -/
def pySplit (sep : Char) (cs : List Char) : List (List Char) :=
  match cs with
  | [] => [[]]
  | c :: rest =>
    let r := pySplit sep rest
    if c = sep then [] :: r
    else (c :: r.headD []) :: r.tail

/-- `setting.split("_")[0]`. -/
def datasetOf (setting : String) : String :=
  String.mk ((pySplit '_' setting.data).headD [])

/-- The warning line printed to `stderr` on a read/parse failure. -/
def warnMsg (path msg : String) : String :=
  "[WARN] 读取 " ++ path ++ " 失败: " ++ msg

/-- The `try` block of `collect_all_runs`: load the JSON, take
`data.get("overall", {})`, then `.get` each metric.  Any exception
escapes to the caller (where the source catches it and warns). -/
def readOverallTriple (e : FileEntry) :
    Except PyErr (Option JVal × Option JVal × Option JVal) := do
  let data ← e.content
  let overall ← pyGetD data "overall" (JVal.obj [])
  let mae ← pyGetOpt overall "MAE"
  let mape ← pyGetOpt overall "MAPE"
  let rmse ← pyGetOpt overall "RMSE"
  pure (mae, mape, rmse)

/-- `all_runs[key].append(run)` on the insertion-ordered repository:
a `defaultdict(list)` keyed by `(model, dataset)`. -/
def insertRun : List (AggKey × List Run) → AggKey → Run → List (AggKey × List Run)
  | [], k, r => [(k, [r])]
  | (k', rs) :: rest, k, r =>
    if k' = k then (k', rs ++ [r]) :: rest else (k', rs) :: insertRun rest k r

/-- Processing of one walked directory in `collect_all_runs`: the `try`
block first (a failure is caught and warned), then the depth check, then
the key derivation and the append. -/
def collectStep (st : List (AggKey × List Run) × List String) (e : FileEntry) :
    List (AggKey × List Run) × List String :=
  match readOverallTriple e with
  | .error err => (st.1, st.2 ++ [warnMsg e.path (errText err)])
  | .ok (mae, mape, rmse) =>
    if e.relParts.length < 2 then st
    else
      let model := e.relParts.headD ""
      let setting := (e.relParts.drop 1).headD ""
      let dataset := datasetOf setting
      (insertRun st.1 (model, dataset)
        { MAE := mae, RMSE := rmse, MAPE := mape, path := e.path,
          setting := setting, time := e.timeStr, timestamp := e.timestamp },
       st.2)

/-- `collect_all_runs(root_dir)`: fold over the walked directories,
returning the run repository and the warning lines sent to `stderr`. -/
def collect_all_runs (files : List FileEntry) :
    List (AggKey × List Run) × List String :=
  files.foldl collectStep ([], [])

/-! ### Best-run selection -/

/-- The selection key of `choose_best` and of the detail-table sort:
`v if isinstance(v, (int, float)) else float("inf")`. -/
def optNumKey (v : Option JVal) : WithTop Rat :=
  match v.bind asPyNumber with
  | some q => (q : WithTop Rat)
  | none => ⊤

/-- `mae_or_inf(r)` from `choose_best`. -/
def mae_or_inf (r : Run) : WithTop Rat := optNumKey r.MAE

/-- Python `min(best :: rest, key := f)`: scan left to right, replacing
the current best only on a strictly smaller key, so the first minimum
wins. -/
def pyMinBy {α β : Type} [LinearOrder β] (f : α → β) : α → List α → α
  | best, [] => best
  | best, x :: xs => if f x < f best then pyMinBy f x xs else pyMinBy f best xs

/-- `choose_best(all_runs)`: for every key, the run with minimal
`mae_or_inf`.  (`collect_all_runs` never produces an empty run list; on
one, Python's `min` would raise, and the entry is dropped here.) -/
def choose_best (all_runs : List (AggKey × List Run)) : List (AggKey × Run) :=
  all_runs.filterMap (fun kr =>
    match kr.2 with
    | [] => none
    | r :: rs => some (kr.1, pyMinBy mae_or_inf r rs))

/-! ### The summary leaderboard (`print_summary_table`) -/

/-- Python `sorted(set(l))`: the distinct elements in ascending order. -/
def pySortedStr (l : List String) : List String :=
  List.insertionSort (fun a b : String => a ≤ b) l.dedup

/-- `models = sorted({m for (m, d) in best_metrics.keys()})`. -/
def models_of (best : List (AggKey × Run)) : List String :=
  pySortedStr (best.map (fun p => p.1.1))

/-- `datasets = sorted({d for (m, d) in best_metrics.keys()})`. -/
def datasets_of (best : List (AggKey × Run)) : List String :=
  pySortedStr (best.map (fun p => p.1.2))

/-- `best_metrics.get((m, d))` on the selection mapping. -/
def dictGet (best : List (AggKey × Run)) (k : AggKey) : Option Run :=
  (best.find? (fun p => p.1 = k)).map (fun p => p.2)

/-- `model_avg_mae[m]`: the arithmetic mean of the numeric `MAE` values
of `m`'s best runs over all datasets, or `inf` when there are none. -/
def model_avg_mae (best : List (AggKey × Run)) (m : String) : WithTop Rat :=
  let maes : List Rat :=
    (datasets_of best).filterMap (fun d =>
      (dictGet best (m, d)).bind (fun info => info.MAE.bind asPyNumber))
  if maes = [] then ⊤
  else ((maes.sum / (maes.length : Rat) : Rat) : WithTop Rat)

/-- `models = sorted(models, key=lambda mm: model_avg_mae.get(mm, inf))`:
a stable sort of the lexicographically pre-sorted model list by mean
MAE. -/
def ranked_models (best : List (AggKey × Run)) : List String :=
  List.insertionSort
    (fun a b => model_avg_mae best a ≤ model_avg_mae best b) (models_of best)

/-- `f"{v:.prec f}" if isinstance(v, (int, float)) else ""`. -/
def optNumFixed (prec : Nat) (v : Option JVal) : String :=
  match v.bind asPyNumber with
  | some q => formatFixed prec q
  | none => ""

/-- `format_mape(mape)` from the source: empty for `None`, otherwise
convert with `float`, multiply by 100 when below 1, and render as a
two-decimal percentage; an inconvertible value falls back to `str`. -/
def format_mape (mape : Option JVal) : String :=
  match mape with
  | none => ""
  | some mv =>
    match pyFloat mv with
    | .error _ => pyStr mv
    | .ok v =>
      if v < 1 then formatFixed 2 (v * 100) ++ "%"
      else formatFixed 2 v ++ "%"

/-- The `values[(m, d)]` triple `(mae_s, rmse_s, mape_s)` of the summary
table. -/
def summary_value (best : List (AggKey × Run)) (m d : String) :
    String × String × String :=
  match dictGet best (m, d) with
  | none => ("", "", "")
  | some info =>
    (optNumFixed 2 info.MAE, optNumFixed 2 info.RMSE, format_mape info.MAPE)

/-- The `values` dict in its insertion order (`for m in models: for d in
datasets`). -/
def summary_values (best : List (AggKey × Run)) (models datasets : List String) :
    List (AggKey × (String × String × String)) :=
  models.flatMap (fun m => datasets.map (fun d => ((m, d), summary_value best m d)))

/-- `col_widths[j] = max(col_widths[j], v)`. -/
def bump (w : List Nat) (j : Nat) (v : Nat) : List Nat :=
  w.set j (max (w.getD j 0) v)

/-- `max(len(m) for m in models)` (the source only evaluates this on a
nonempty list; the `0` seed is then irrelevant). -/
def maxStrLen (l : List String) : Nat := l.foldl (fun a s => max a s.length) 0

/-- The header pass of the summary width computation: for dataset number
`di`, raise the three sub-column widths at base `1 + 3 * di` to cover
`MAE`/the dataset name, `RMSE` and `MAPE`. -/
def sumHdrStep (w : List Nat) (did : Nat × String) : List Nat :=
  let base := 1 + 3 * did.1
  let w := bump w base (max "MAE".length did.2.length)
  let w := bump w (base + 1) "RMSE".length
  bump w (base + 2) "MAPE".length

/-- The body pass of the summary width computation: for the cell triple
of `(m, d)`, raise the three sub-column widths of `d`'s group (located
through `d2i`, i.e. the index of `d` in the dataset list). -/
def sumValStep (datasets : List String) (w : List Nat)
    (kv : AggKey × (String × String × String)) : List Nat :=
  let base := 1 + 3 * (datasets.indexOf kv.1.2)
  let w := bump w base kv.2.1.length
  let w := bump w (base + 1) kv.2.2.1.length
  bump w (base + 2) kv.2.2.2.length

/-- The column-width computation of `print_summary_table`: one model
column followed by three sub-columns per dataset, each width the running
maximum of its header and body cell lengths. -/
def summary_col_widths (models datasets : List String)
    (vals : List (AggKey × (String × String × String))) : List Nat :=
  let numCols := 1 + 3 * datasets.length
  let w0 := List.replicate numCols 0
  let w1 := bump w0 0
    (max (max (max "Model".length "Dataset".length) "Metric".length) (maxStrLen models))
  let w2 := datasets.enum.foldl sumHdrStep w1
  vals.foldl (sumValStep datasets) w2

/-- `header1_cells`: `"Dataset"` then each dataset name spanning three
sub-columns (two of them blank). -/
def header1_cells (datasets : List String) : List String :=
  "Dataset" :: datasets.flatMap (fun d => [d, "", ""])

/-- `header2_cells`: `"Metric"` then `MAE/RMSE/MAPE` per dataset. -/
def header2_cells (datasets : List String) : List String :=
  "Metric" :: datasets.flatMap (fun _ => ["MAE", "RMSE", "MAPE"])

/-- One data row of the summary table: the model name, then the three
formatted cells for every dataset. -/
def summary_row_cells (best : List (AggKey × Run)) (datasets : List String)
    (m : String) : List String :=
  m :: datasets.flatMap (fun d =>
    [(summary_value best m d).1, (summary_value best m d).2.1,
     (summary_value best m d).2.2])

/-- All lines of the summary table (borders, the two header rows, one
row per ranked model). -/
def summary_table_lines (best : List (AggKey × Run)) : List String :=
  let models := ranked_models best
  let datasets := datasets_of best
  let vals := summary_values best models datasets
  let W := summary_col_widths models datasets vals
  let numCols := 1 + 3 * datasets.length
  [border_line W,
   format_row W (header1_cells datasets) (List.replicate numCols Align.center),
   format_row W (header2_cells datasets) (List.replicate numCols Align.center),
   border_line W]
  ++ models.map (fun m =>
       format_row W (summary_row_cells best datasets m)
         (Align.left :: List.replicate (numCols - 1) Align.right))
  ++ [border_line W]

/-- The user-facing diagnostic printed when no result file was found. -/
def noResultsMsg : String := "没有在指定目录下找到任何 test_metrics.json"

/-- `print_summary_table(best_metrics)` as the list of stdout lines. -/
def print_summary_lines (best : List (AggKey × Run)) : List String :=
  if best.isEmpty then [noResultsMsg] else summary_table_lines best

/-! ### The per-dataset detail tables (`print_detail_tables`) -/

/-- One row of a detail table, as assembled from a run. -/
structure DetailRow where
  model : String
  time : String
  timestamp : Rat
  MAE : Option JVal
  RMSE : Option JVal
  MAPE : Option JVal

/-- The rows collected for dataset `d`: every run of every `(m, dd)` key
with `dd = d`, in repository order. -/
def detail_rows (all_runs : List (AggKey × List Run)) (d : String) : List DetailRow :=
  all_runs.foldl (fun acc kr =>
    if kr.1.2 = d then
      acc ++ kr.2.map (fun r =>
        { model := kr.1.1, time := r.time, timestamp := r.timestamp,
          MAE := r.MAE, RMSE := r.RMSE, MAPE := r.MAPE })
    else acc) []

/-- `rows.sort(key=mae_or_inf)`: Python's stable sort by the
infinity-padded MAE key. -/
def sorted_detail_rows (all_runs : List (AggKey × List Run)) (d : String) :
    List DetailRow :=
  List.insertionSort (fun a b => optNumKey a.MAE ≤ optNumKey b.MAE)
    (detail_rows all_runs d)

/-- The five formatted cells of a detail row (`Model`, `Time`, four-digit
`MAE` and `RMSE`, percentage `MAPE`). -/
def detail_row_cells (row : DetailRow) : List String :=
  [row.model, row.time, optNumFixed 4 row.MAE, optNumFixed 4 row.RMSE,
   format_mape row.MAPE]

/-- The headers of every detail table. -/
def detailHeaders : List String := ["Model", "Time", "MAE", "RMSE", "MAPE"]

/-- One row's pass of the detail-table width computation: raise the
five column widths to cover the row's cells. -/
def detailWidthStep (w : List Nat) (row : DetailRow) : List Nat :=
  let w := bump w 0 row.model.length
  let w := bump w 1 row.time.length
  let w := bump w 2 (optNumFixed 4 row.MAE).length
  let w := bump w 3 (optNumFixed 4 row.RMSE).length
  bump w 4 (format_mape row.MAPE).length

/-- The detail-table width computation: start from the header lengths,
then take running maxima over every row's five cell lengths. -/
def detail_col_widths (rows : List DetailRow) : List Nat :=
  rows.foldl detailWidthStep (detailHeaders.map String.length)

/-- All bordered lines of the detail table for one dataset. -/
def detail_table_lines (all_runs : List (AggKey × List Run)) (d : String) :
    List String :=
  let rows := sorted_detail_rows all_runs d
  let W := detail_col_widths rows
  [border_line W,
   format_row W detailHeaders (List.replicate 5 Align.center),
   border_line W]
  ++ rows.map (fun row =>
       format_row W (detail_row_cells row)
         [Align.left, Align.left, Align.right, Align.right, Align.right])
  ++ [border_line W]

/-- The emitted detail tables: one per dataset in sorted order, skipping
datasets with zero rows. -/
def detail_tables (all_runs : List (AggKey × List Run)) :
    List (String × List String) :=
  (pySortedStr (all_runs.map (fun kr => kr.1.2))).filterMap (fun d =>
    if (detail_rows all_runs d).isEmpty then none
    else some (d, detail_table_lines all_runs d))

/-- `print_detail_tables(all_runs)` as the list of stdout lines (a blank
line and a `===== dataset =====` banner before each table). -/
def print_detail_lines (all_runs : List (AggKey × List Run)) : List String :=
  if all_runs.isEmpty then []
  else (pySortedStr (all_runs.map (fun kr => kr.1.2))).flatMap (fun d =>
    if (detail_rows all_runs d).isEmpty then []
    else ["", "===== " ++ d ++ " ====="] ++ detail_table_lines all_runs d)

/-- The stdout of `main()` in `collect_metrics.py`. -/
def report_lines (files : List FileEntry) : List String :=
  let all_runs := (collect_all_runs files).1
  print_summary_lines (choose_best all_runs) ++ print_detail_lines all_runs

/-! ### Horizon extraction (`collect_horizon_rows`) -/

/-- One row of the horizon table. -/
structure HRow where
  model : String
  dataset : String
  setting : String
  horizon : Int
  MAE : Option JVal
  MAPE : Option JVal
  RMSE : Option JVal
  time : String
  path : String
  timestamp : Rat

/-- The horizon recognized for a top-level key, or `none` for a skipped
key: `"overall"` is horizon 0; otherwise the key must start with
`"horizon_"` and `int(key.split("_")[1])` must succeed. -/
def horizonOfKey (key : String) : Option Int :=
  if key = "overall" then some 0
  else if ¬ key.startsWith "horizon_" then none
  else pyIntOfString (((key.splitOn "_").drop 1).headD "")

/-- The `for key, val in data.items()` loop body of
`collect_horizon_rows`: a recognized entry reads its three metrics with
`val.get`, which raises (uncaught) on a non-dict `val`; an unrecognized
key leaves the row list unchanged. -/
def horizonStep (model dataset setting timeStr path : String) (timestamp : Rat)
    (acc : List HRow) (kv : String × JVal) : Except PyErr (List HRow) :=
  match horizonOfKey kv.1 with
  | none => pure acc
  | some h => do
    let mae ← pyGetOpt kv.2 "MAE"
    let mape ← pyGetOpt kv.2 "MAPE"
    let rmse ← pyGetOpt kv.2 "RMSE"
    pure (acc ++ [{ model := model, dataset := dataset, setting := setting,
                    horizon := h, MAE := mae, MAPE := mape, RMSE := rmse,
                    time := timeStr, path := path, timestamp := timestamp }])

/-- The `for key, val in data.items()` loop of `collect_horizon_rows`,
starting from the empty row list. -/
def horizonRowsOf (model dataset setting timeStr path : String) (timestamp : Rat)
    (items : List (String × JVal)) : Except PyErr (List HRow) :=
  items.foldlM (horizonStep model dataset setting timeStr path timestamp) []

/-- `collect_horizon_rows(root_dir)`: the depth check comes first, then
the guarded read/parse (failure warns and skips the file), then the
unguarded `data.items()` loop, whose exceptions abort the whole scan. -/
def collect_horizon_rows (files : List FileEntry) :
    Except PyErr (List HRow × List String) :=
  files.foldlM (fun (st : List HRow × List String) e =>
    if e.relParts.length < 2 then pure st
    else
      let model := e.relParts.headD ""
      let setting := (e.relParts.drop 1).headD ""
      let dataset := datasetOf setting
      match e.content with
      | .error err => pure (st.1, st.2 ++ [warnMsg e.path (errText err)])
      | .ok data => do
        let items ← pyItems data
        let rows ← horizonRowsOf model dataset setting e.timeStr e.path e.timestamp items
        pure (st.1 ++ rows, st.2))
    ([], [])

/-! ### Fixtures: concrete inputs used by witnesses and counterexamples -/

/-- A run with only a numeric MAE. -/
def runMAE (q : Rat) : Run :=
  { MAE := some (.num q), RMSE := none, MAPE := none, path := "", setting := "",
    time := "", timestamp := 0 }

/-- A run with no MAE at all. -/
def runNoMAE : Run :=
  { MAE := none, RMSE := none, MAPE := none, path := "", setting := "",
    time := "", timestamp := 0 }

/-- A repository with one key and two runs (MAE 5 then MAE 3). -/
def exRepoC1 : List (AggKey × List Run) :=
  [(("A", "X"), [runMAE 5, runMAE 3])]

/-- The spec's end-to-end scenario as a best-run selection: A has MAE 5
on X and 7 on Y, B has MAE 4 on X only. -/
def exBest : List (AggKey × Run) :=
  [(("A", "X"), runMAE 5), (("A", "Y"), runMAE 7), (("B", "X"), runMAE 4)]

/-- A best-run selection where no model has any numeric MAE. -/
def exBest2 : List (AggKey × Run) :=
  [(("C", "X"), runNoMAE), (("D", "X"), runNoMAE)]

/-- A depth-1 entry with a parsed file, for the C6 witness. -/
def entryShallow : FileEntry :=
  { relParts := ["ModelOnly"], content := .ok (.obj []), path := "p",
    timeStr := "t", timestamp := 0 }

/-- An unreadable file, for the C8 witness. -/
def entryCorrupt : FileEntry :=
  { relParts := ["M", "D_1", "h"], content := .error (.ioError "boom"),
    path := "p", timeStr := "t", timestamp := 0 }

/-- The error of a failed computation, if any. -/
def errOf {A : Type} : Except PyErr A → Option PyErr
  | .error e => some e
  | .ok _ => none

/-- A well-shaped result file for the horizon scan. -/
def entryHGood : FileEntry :=
  { relParts := ["M", "D_1", "h"],
    content := .ok (.obj [("overall", .obj [("MAE", .num 3)])]),
    path := "good", timeStr := "t", timestamp := 0 }

/-- A result file that parses as JSON but whose `"overall"` value is a
number, not an object: `val.get("MAE")` then raises `AttributeError`
outside any `try`. -/
def entryHBad : FileEntry :=
  { relParts := ["M2", "D_2", "h"], content := .ok (.obj [("overall", .num 1)]),
    path := "bad", timeStr := "t", timestamp := 0 }

/-- Modelled from the spec: a well-formed `"horizon_<integer>"` key is
`"horizon_"` followed by one or more decimal digits (the spec's horizon
keys are integers starting at 1). -/
def wellFormedHorizonKey (key : String) : Bool :=
  "horizon_".data.isPrefixOf key.data &&
    (decide (key.data.drop 8 ≠ []) && (key.data.drop 8).all (fun c => c.isDigit))

/-- A successfully parsed result file whose only key is the ill-formed
`"horizon_1_2"`. -/
def entryC4 : FileEntry :=
  { relParts := ["M", "D_1", "h"],
    content := .ok (.obj [("horizon_1_2", .obj [("MAE", .num 1)])]),
    path := "c4", timeStr := "t", timestamp := 0 }

/-- Total lookup in a JSON object (`none` on non-objects); under the
well-shapedness hypothesis of `spec_C4` it agrees with `val.get`. -/
def jGet (v : JVal) (key : String) : Option JVal :=
  match v with
  | .obj kvs => (kvs.find? (fun p => p.1 = key)).map (·.2)
  | _ => none

/-- The row the horizon loop emits for a recognized entry `kv` with
recognized horizon `h`. -/
def hRowOf (m d s timeStr path : String) (ts : Rat) (kv : String × JVal)
    (h : Int) : HRow :=
  { model := m, dataset := d, setting := s, horizon := h,
    MAE := jGet kv.2 "MAE", MAPE := jGet kv.2 "MAPE",
    RMSE := jGet kv.2 "RMSE", time := timeStr, path := path, timestamp := ts }

/-- The top-level object of the C4 witness file: an `"overall"` entry,
an ignored key, and a `"horizon_2"` entry. -/
def kvsW : List (String × JVal) :=
  [("overall", JVal.obj []), ("junk", JVal.num 3),
   ("horizon_2", JVal.obj [("MAE", JVal.num 1)])]

/-! ### Generic lemmas: Python `min` -/

theorem pyMinBy_mem {α β : Type} [LinearOrder β] (f : α → β) (b : α) (l : List α) :
    pyMinBy f b l ∈ b :: l := by
  induction l generalizing b with
  | nil => simp [pyMinBy]
  | cons x xs ih =>
    simp only [pyMinBy]
    split
    · have := ih x
      simp only [List.mem_cons] at this ⊢
      tauto
    · have := ih b
      simp only [List.mem_cons] at this ⊢
      tauto

theorem pyMinBy_le {α β : Type} [LinearOrder β] (f : α → β) (b : α) (l : List α) :
    ∀ x ∈ b :: l, f (pyMinBy f b l) ≤ f x := by
  induction l generalizing b with
  | nil => simp [pyMinBy]
  | cons x xs ih =>
    intro y hy
    simp only [pyMinBy]
    split
    case isTrue h =>
      rcases List.mem_cons.mp hy with h1 | h2
      · rw [h1]
        exact le_trans (ih x x (List.mem_cons_self _ _)) (le_of_lt h)
      · exact ih x y h2
    case isFalse h =>
      rcases List.mem_cons.mp hy with h1 | h2
      · rw [h1]
        exact ih b b (List.mem_cons_self _ _)
      · rcases List.mem_cons.mp h2 with h3 | h4
        · rw [h3]
          exact le_trans (ih b b (List.mem_cons_self _ _)) (le_of_not_lt h)
        · exact ih b y (List.mem_cons_of_mem _ h4)

theorem pyMinBy_first {α β : Type} [LinearOrder β] (f : α → β) (b : α) (l : List α) :
    ∃ l₁ l₂, b :: l = l₁ ++ pyMinBy f b l :: l₂ ∧
      ∀ y ∈ l₁, f (pyMinBy f b l) < f y := by
  induction l generalizing b with
  | nil => exact ⟨[], [], by simp [pyMinBy], by simp⟩
  | cons x xs ih =>
    simp only [pyMinBy]
    split
    case isTrue h =>
      obtain ⟨l₁, l₂, heq, hlt⟩ := ih x
      refine ⟨b :: l₁, l₂, by simp [heq], ?_⟩
      intro y hy
      rcases List.mem_cons.mp hy with rfl | hy
      · exact lt_of_le_of_lt (pyMinBy_le f x xs x (by simp)) h
      · exact hlt y hy
    case isFalse h =>
      obtain ⟨l₁, l₂, heq, hlt⟩ := ih b
      cases l₁ with
      | nil =>
        simp only [List.nil_append, List.cons.injEq] at heq
        exact ⟨[], x :: xs, by simp [← heq.1], by simp⟩
      | cons a l₁ =>
        simp only [List.cons_append, List.cons.injEq] at heq
        refine ⟨b :: x :: l₁, l₂, by simp only [List.cons_append]; rw [← heq.2], ?_⟩
        intro y hy
        rcases List.mem_cons.mp hy with rfl | hy'
        · exact hlt y (heq.1 ▸ List.mem_cons_self _ _)
        · rcases List.mem_cons.mp hy' with rfl | hy''
          · exact lt_of_lt_of_le (hlt b (heq.1 ▸ List.mem_cons_self _ _))
              (le_of_not_lt h)
          · exact hlt y (List.mem_cons_of_mem _ hy'')

/-! ### Generic lemmas: stability of the modelled Python sort -/

theorem filter_orderedInsert_key {α β : Type} [LinearOrder β] (k : α → β)
    (v : β) (x : α) (s : List α) :
    (List.orderedInsert (fun a b => k a ≤ k b) x s).filter
        (fun y => decide (k y = v)) =
      if k x = v then
        x :: s.filter (fun y => decide (k y = v))
      else s.filter (fun y => decide (k y = v)) := by
  induction s with
  | nil =>
    by_cases hx : k x = v <;> simp [List.orderedInsert, List.filter, hx]
  | cons y s ih =>
    simp only [List.orderedInsert]
    by_cases hxy : k x ≤ k y
    · rw [if_pos hxy]
      by_cases hx : k x = v <;> simp [List.filter_cons, hx]
    · rw [if_neg hxy]
      have hy_lt : k y < k x := not_le.mp hxy
      by_cases hx : k x = v
      · have hyv : ¬ (k y = v) := by
          rw [← hx]
          exact ne_of_lt hy_lt
        simp [List.filter_cons, hx, hyv, ih]
      · by_cases hyv : k y = v <;> simp [List.filter_cons, hx, hyv, ih]

theorem filter_insertionSort_key {α β : Type} [LinearOrder β] (k : α → β)
    (v : β) (l : List α) :
    (List.insertionSort (fun a b => k a ≤ k b) l).filter
        (fun y => decide (k y = v)) =
      l.filter (fun y => decide (k y = v)) := by
  induction l with
  | nil => rfl
  | cons x l ih =>
    simp only [List.insertionSort]
    rw [filter_orderedInsert_key]
    by_cases hx : k x = v <;> simp [List.filter_cons, hx, ih]

theorem pairwise_lt_pySortedStr (l : List String) :
    (pySortedStr l).Pairwise (fun a b : String => a < b) := by
  have hs : (pySortedStr l).Pairwise (fun a b : String => a ≤ b) := by
    haveI : IsTotal String (fun a b : String => a ≤ b) := ⟨fun a b => le_total a b⟩
    haveI : IsTrans String (fun a b : String => a ≤ b) :=
      ⟨fun a b c hab hbc => le_trans hab hbc⟩
    exact List.sorted_insertionSort _ _
  have hnd : (pySortedStr l).Nodup :=
    ((List.perm_insertionSort _ _).nodup_iff).mpr (List.nodup_dedup l)
  exact (hs.and hnd).imp (fun h => lt_of_le_of_ne h.1 h.2)

/-! ### C1: best-run selection -/

/-- C1: for every `(model, dataset)` key with at least one run,
`choose_best` selects a member run whose `mae_or_inf` key (absent MAE =
positive infinity) is minimal, ties — including the all-absent case —
resolving to the first run in insertion order (everything strictly
before the selected run has a strictly larger key); consequently, for
every run of that key with a numeric MAE, the selected run's MAE is
numeric and less than or equal to it. -/
theorem spec_C1 (all_runs : List (AggKey × List Run)) (k : AggKey)
    (runs : List Run) (hmem : (k, runs) ∈ all_runs) (r0 : Run) (rs : List Run)
    (hne : runs = r0 :: rs) :
    ∃ b : Run, (k, b) ∈ choose_best all_runs ∧ b ∈ runs ∧
      (∀ r ∈ runs, mae_or_inf b ≤ mae_or_inf r) ∧
      (∃ l₁ l₂, runs = l₁ ++ b :: l₂ ∧ ∀ y ∈ l₁, mae_or_inf b < mae_or_inf y) ∧
      (∀ r ∈ runs, ∀ q : Rat, r.MAE.bind asPyNumber = some q →
        ∃ qb : Rat, b.MAE.bind asPyNumber = some qb ∧ qb ≤ q) := by
  subst hne
  refine ⟨pyMinBy mae_or_inf r0 rs, ?_, pyMinBy_mem _ _ _, pyMinBy_le _ _ _,
    pyMinBy_first _ _ _, ?_⟩
  · exact List.mem_filterMap.mpr ⟨(k, r0 :: rs), hmem, rfl⟩
  · intro r hr q hq
    have hle := pyMinBy_le mae_or_inf r0 rs r hr
    have hr' : mae_or_inf r = ((q : Rat) : WithTop Rat) := by
      simp [mae_or_inf, optNumKey, hq]
    rw [hr'] at hle
    rcases hb : (pyMinBy mae_or_inf r0 rs).MAE.bind asPyNumber with _ | qb
    · exfalso
      have htop : mae_or_inf (pyMinBy mae_or_inf r0 rs) = ⊤ := by
        simp [mae_or_inf, optNumKey, hb]
      rw [htop] at hle
      exact WithTop.coe_ne_top (top_le_iff.mp hle)
    · refine ⟨qb, rfl, ?_⟩
      have hqb : mae_or_inf (pyMinBy mae_or_inf r0 rs) = ((qb : Rat) : WithTop Rat) := by
        simp [mae_or_inf, optNumKey, hb]
      rw [hqb] at hle
      exact_mod_cast hle

/-- Witness for C1 at a concrete two-run repository. -/
theorem spec_C1_witness :
    ∃ b : Run, (("A", "X"), b) ∈ choose_best exRepoC1 ∧ b ∈ [runMAE 5, runMAE 3] ∧
      (∀ r ∈ [runMAE 5, runMAE 3], mae_or_inf b ≤ mae_or_inf r) ∧
      (∃ l₁ l₂, [runMAE 5, runMAE 3] = l₁ ++ b :: l₂ ∧
        ∀ y ∈ l₁, mae_or_inf b < mae_or_inf y) ∧
      (∀ r ∈ [runMAE 5, runMAE 3], ∀ q : Rat, r.MAE.bind asPyNumber = some q →
        ∃ qb : Rat, b.MAE.bind asPyNumber = some qb ∧ qb ≤ q) :=
  spec_C1 exRepoC1 ("A", "X") [runMAE 5, runMAE 3]
    (List.mem_singleton.mpr rfl) (runMAE 5) [runMAE 3] rfl

/-! ### C2: leaderboard ranking by mean MAE -/

/-- C2: leaderboard rows are the models reordered by a stable ascending
sort on `model_avg_mae` (the mean of the numeric best-run MAE values
over exactly the datasets that have them, `⊤` when there are none), so
a model whose mean is `⊤` is never followed by one with a finite mean;
on the spec's example (A: MAE 5 and 7, mean 6; B: MAE 4, mean 4) the
row order is B before A. -/
theorem spec_C2 :
    (∀ best : List (AggKey × Run),
        (ranked_models best).Perm (models_of best) ∧
        (ranked_models best).Pairwise
          (fun a b => model_avg_mae best a ≤ model_avg_mae best b)) ∧
    (∀ best : List (AggKey × Run), ∀ a b : String,
        [a, b].Sublist (ranked_models best) → model_avg_mae best a = ⊤ →
        model_avg_mae best b = ⊤) ∧
    (model_avg_mae exBest "A" = ((6 : Rat) : WithTop Rat) ∧
     model_avg_mae exBest "B" = ((4 : Rat) : WithTop Rat) ∧
     ranked_models exBest = ["B", "A"]) := by
  have hpw : ∀ best : List (AggKey × Run),
      (ranked_models best).Pairwise
        (fun a b => model_avg_mae best a ≤ model_avg_mae best b) := by
    intro best
    haveI : IsTotal String
        (fun a b => model_avg_mae best a ≤ model_avg_mae best b) :=
      ⟨fun a b => le_total _ _⟩
    haveI : IsTrans String
        (fun a b => model_avg_mae best a ≤ model_avg_mae best b) :=
      ⟨fun a b c hab hbc => le_trans hab hbc⟩
    exact List.sorted_insertionSort _ _
  refine ⟨fun best => ⟨List.perm_insertionSort _ _, hpw best⟩, ?_, ?_, ?_, ?_⟩
  · intro best a b hsub ha
    have hab := List.pairwise_iff_forall_sublist.mp (hpw best) hsub
    rw [ha] at hab
    exact top_le_iff.mp hab
  · with_unfolding_all decide
  · with_unfolding_all decide
  · with_unfolding_all decide

/-- Witness for C2: the `⊤`-ranks-last implication instantiated on a
selection where both models lack numeric MAE, plus the concrete example
row order. -/
theorem spec_C2_witness :
    model_avg_mae exBest2 "D" = ⊤ ∧ ranked_models exBest = ["B", "A"] := by
  have h : ranked_models exBest2 = ["C", "D"] := by with_unfolding_all decide
  refine ⟨spec_C2.2.1 exBest2 "C" "D" ?_ (by with_unfolding_all decide),
    spec_C2.2.2.2.2⟩
  rw [h]

/-! ### C10: deterministic tie-break of the leaderboard order -/

/-- C10: models with equal mean MAE (including two models with no valid
MAE anywhere) appear in the leaderboard in lexicographic order of their
names, because the ranking sort is stable and runs on the
lexicographically pre-sorted model list. -/
theorem spec_C10 (best : List (AggKey × Run)) (a b : String)
    (hsub : [a, b].Sublist (ranked_models best))
    (heq : model_avg_mae best a = model_avg_mae best b) : a ≤ b := by
  have h1 : decide (model_avg_mae best a = model_avg_mae best a) = true := by simp
  have h2 : decide (model_avg_mae best b = model_avg_mae best a) = true := by
    simp [heq]
  have hfil : [a, b].filter
      (fun y => decide (model_avg_mae best y = model_avg_mae best a)) = [a, b] := by
    simp [List.filter, h1, h2]
  have hsf := hsub.filter
    (fun y => decide (model_avg_mae best y = model_avg_mae best a))
  rw [hfil] at hsf
  unfold ranked_models at hsf
  rw [filter_insertionSort_key] at hsf
  have hpwf : ((models_of best).filter
      (fun y => decide (model_avg_mae best y = model_avg_mae best a))).Pairwise
        (fun x y : String => x < y) :=
    (pairwise_lt_pySortedStr _).sublist (List.filter_sublist _)
  exact le_of_lt (List.pairwise_iff_forall_sublist.mp hpwf hsf)

/-- Witness for C10: two models with equal (infinite) mean are in
lexicographic order. -/
theorem spec_C10_witness :
    model_avg_mae exBest2 "C" = model_avg_mae exBest2 "D" ∧ ("C" : String) ≤ "D" := by
  have h : ranked_models exBest2 = ["C", "D"] := by with_unfolding_all decide
  have heq : model_avg_mae exBest2 "C" = model_avg_mae exBest2 "D" := by
    with_unfolding_all decide
  exact ⟨heq, spec_C10 exBest2 "C" "D" (by rw [h]) heq⟩

/-! ### C5: leaderboard cell rendering -/

/-- C5: a `(model, dataset)` cell with no best-run entry renders three
empty strings; otherwise MAE and RMSE render with two decimals when
numeric and as `""` when missing, and MAPE renders as a two-decimal
percentage, scaled by 100 exactly when the value is below 1
(`0.1523 ⇒ "15.23%"`, `15.23 ⇒ "15.23%"`, absent `⇒ ""`). -/
theorem spec_C5 :
    (∀ best m d, dictGet best (m, d) = none → summary_value best m d = ("", "", "")) ∧
    (∀ best m d info, dictGet best (m, d) = some info →
        summary_value best m d =
          (optNumFixed 2 info.MAE, optNumFixed 2 info.RMSE, format_mape info.MAPE)) ∧
    optNumFixed 2 none = "" ∧ format_mape none = "" ∧
    (∀ q : Rat, optNumFixed 2 (some (JVal.num q)) = formatFixed 2 q) ∧
    (∀ q : Rat, 1 ≤ q → format_mape (some (JVal.num q)) = formatFixed 2 q ++ "%") ∧
    (∀ q : Rat, q < 1 → format_mape (some (JVal.num q)) = formatFixed 2 (q * 100) ++ "%") ∧
    format_mape (some (JVal.num (1523/10000))) = "15.23%" ∧
    format_mape (some (JVal.num (1523/100))) = "15.23%" ∧
    optNumFixed 2 (some (JVal.num 5)) = "5.00" := by
  refine ⟨?_, ?_, rfl, rfl, ?_, ?_, ?_, ?_, ?_, ?_⟩
  · intro best m d h
    simp [summary_value, h]
  · intro best m d info h
    simp [summary_value, h]
  · intro q
    simp [optNumFixed, asPyNumber]
  · intro q hq
    simp only [format_mape, pyFloat]
    rw [if_neg (not_lt.mpr hq)]
  · intro q hq
    simp only [format_mape, pyFloat]
    rw [if_pos hq]
  · with_unfolding_all decide
  · with_unfolding_all decide
  · with_unfolding_all decide

/-- Witness for C5: the `≥ 1` branch applied at 3 gives `"3.00%"`. -/
theorem spec_C5_witness : format_mape (some (JVal.num 3)) = "3.00%" := by
  rw [spec_C5.2.2.2.2.2.1 3 (by norm_num)]
  with_unfolding_all decide

/-! ### C6: path-derived identity and the depth filter -/

theorem pySplit_headD (sep : Char) (cs : List Char) :
    (pySplit sep cs).headD [] = cs.takeWhile (fun c => c != sep) := by
  induction cs with
  | nil => rfl
  | cons c rest ih =>
    simp only [pySplit, List.takeWhile]
    by_cases h : c = sep
    · simp [h]
    · simp only [if_neg h, List.headD_cons, ih]
      have : (c != sep) = true := bne_iff_ne.mpr h
      rw [this]

/-- C6: an entry whose relative path has fewer than two segments
contributes no run — with no warning and no error when its file parses —
while a deeper entry's run is keyed by the first segment (model) and the
first `"_"`-token of the second segment (dataset), the dataset being the
prefix of the setting up to the first underscore, hence the whole
setting when it has no underscore. -/
theorem spec_C6 :
    (∀ st e, e.relParts.length < 2 →
        (∀ t, readOverallTriple e = .ok t → collectStep st e = st) ∧
        (collectStep st e).1 = st.1) ∧
    (∀ st e mae mape rmse, 2 ≤ e.relParts.length →
        readOverallTriple e = .ok (mae, mape, rmse) →
        collectStep st e =
          (insertRun st.1
            (e.relParts.headD "", datasetOf ((e.relParts.drop 1).headD ""))
            { MAE := mae, RMSE := rmse, MAPE := mape, path := e.path,
              setting := (e.relParts.drop 1).headD "", time := e.timeStr,
              timestamp := e.timestamp }, st.2)) ∧
    (∀ s : String, datasetOf s = String.mk (s.data.takeWhile (fun c => c != '_'))) ∧
    (∀ s : String, '_' ∉ s.data → datasetOf s = s) := by
  have hchar : ∀ s : String, datasetOf s =
      String.mk (s.data.takeWhile (fun c => c != '_')) := by
    intro s
    unfold datasetOf
    rw [pySplit_headD]
  refine ⟨?_, ?_, hchar, ?_⟩
  · intro st e hlt
    constructor
    · intro t ht
      obtain ⟨mae, mape, rmse⟩ := t
      simp only [collectStep, ht]
      rw [if_pos hlt]
    · cases hR : readOverallTriple e with
      | error err => simp [collectStep, hR]
      | ok t =>
        obtain ⟨mae, mape, rmse⟩ := t
        simp only [collectStep, hR]
        rw [if_pos hlt]
  · intro st e mae mape rmse hge hok
    simp only [collectStep, hok]
    rw [if_neg (not_lt.mpr hge)]
  · intro s hs
    rw [hchar s]
    have : s.data.takeWhile (fun c => c != '_') = s.data := by
      rw [List.takeWhile_eq_self_iff]
      intro c hc
      exact bne_iff_ne.mpr (fun h => hs (h ▸ hc))
    rw [this]

/-- Witness for C6: the shallow entry leaves the state untouched, and an
underscore-free setting is its own dataset. -/
theorem spec_C6_witness :
    collectStep ([], []) entryShallow = ([], []) ∧ datasetOf "PEMS04" = "PEMS04" :=
  ⟨(spec_C6.1 ([], []) entryShallow (by decide)).1 (none, none, none)
      (by with_unfolding_all rfl),
   spec_C6.2.2.2 "PEMS04" (by decide)⟩

/-! ### C7: per-dataset detail tables -/

/-- C7: the detail rows for a dataset are a stable ascending sort by the
infinity-padded MAE key of every matching run (a permutation, pairwise
sorted, with each key class kept in original order, and rows after an
absent-MAE row also absent), MAE/RMSE format with four decimals, and a
dataset with zero rows emits no table. -/
theorem spec_C7 :
    (∀ all_runs : List (AggKey × List Run), ∀ d : String,
        (sorted_detail_rows all_runs d).Perm (detail_rows all_runs d) ∧
        (sorted_detail_rows all_runs d).Pairwise
          (fun a b => optNumKey a.MAE ≤ optNumKey b.MAE) ∧
        (∀ v : WithTop Rat,
          (sorted_detail_rows all_runs d).filter
              (fun r => decide (optNumKey r.MAE = v)) =
            (detail_rows all_runs d).filter
              (fun r => decide (optNumKey r.MAE = v))) ∧
        (∀ a b : DetailRow, [a, b].Sublist (sorted_detail_rows all_runs d) →
          optNumKey a.MAE = ⊤ → optNumKey b.MAE = ⊤) ∧
        ((detail_rows all_runs d).isEmpty = true →
          ∀ t, (d, t) ∉ detail_tables all_runs)) ∧
    optNumFixed 4 (some (JVal.num (61/10))) = "6.1000" ∧
    optNumFixed 4 none = "" := by
  refine ⟨?_, by with_unfolding_all decide, rfl⟩
  intro all_runs d
  have hpw : (sorted_detail_rows all_runs d).Pairwise
      (fun a b => optNumKey a.MAE ≤ optNumKey b.MAE) := by
    haveI : IsTotal DetailRow (fun a b => optNumKey a.MAE ≤ optNumKey b.MAE) :=
      ⟨fun a b => le_total _ _⟩
    haveI : IsTrans DetailRow (fun a b => optNumKey a.MAE ≤ optNumKey b.MAE) :=
      ⟨fun a b c hab hbc => le_trans hab hbc⟩
    exact List.sorted_insertionSort _ _
  refine ⟨List.perm_insertionSort _ _, hpw, ?_, ?_, ?_⟩
  · intro v
    exact filter_insertionSort_key (fun r : DetailRow => optNumKey r.MAE) v _
  · intro a b hsub ha
    have := List.pairwise_iff_forall_sublist.mp hpw hsub
    rw [ha] at this
    exact top_le_iff.mp this
  · intro hemp t hmem
    rcases List.mem_filterMap.mp hmem with ⟨d', hd', heq⟩
    by_cases he : (detail_rows all_runs d').isEmpty
    · rw [if_pos he] at heq
      exact Option.noConfusion heq
    · rw [if_neg he] at heq
      have hdd : d' = d := congrArg Prod.fst (Option.some.inj heq)
      rw [hdd] at he
      exact he hemp

/-- Witness for C7: a dataset with zero rows has no table, and the
four-decimal formats evaluate. -/
theorem spec_C7_witness :
    (("Z", ([] : List String)) ∉ detail_tables exRepoC1) ∧
    optNumFixed 4 (some (JVal.num (61/10))) = "6.1000" :=
  ⟨(spec_C7.1 exRepoC1 "Z").2.2.2.2 (by with_unfolding_all decide) [],
   spec_C7.2.1⟩

/-! ### C8: empty result set and per-file robustness of the report -/

theorem collectStep_fst_congr (e : FileEntry)
    (S S' : List (AggKey × List Run) × List String) (h : S.1 = S'.1) :
    (collectStep S e).1 = (collectStep S' e).1 := by
  unfold collectStep
  cases hR : readOverallTriple e with
  | error err => simpa using h
  | ok t =>
    obtain ⟨mae, mape, rmse⟩ := t
    by_cases hd : e.relParts.length < 2 <;> simp [hd, h]

theorem foldl_collectStep_fst :
    ∀ (l : List FileEntry) (S S' : List (AggKey × List Run) × List String),
      S.1 = S'.1 → (l.foldl collectStep S).1 = (l.foldl collectStep S').1 := by
  intro l
  induction l with
  | nil => intro S S' h; simpa using h
  | cons e l ih =>
    intro S S' h
    simp only [List.foldl_cons]
    exact ih _ _ (collectStep_fst_congr e S S' h)

theorem collectStep_error (e : FileEntry) (err : PyErr)
    (h : e.content = .error err)
    (S : List (AggKey × List Run) × List String) :
    collectStep S e = (S.1, S.2 ++ [warnMsg e.path (errText err)]) := by
  unfold collectStep
  have : readOverallTriple e = .error err := by
    unfold readOverallTriple
    rw [h]
    rfl
  rw [this]

/-- C8: with zero parsed runs the report is exactly the single
diagnostic message (no summary table, no detail tables), and a single
unreadable file changes neither the parsed repository nor a single
character of the report (the whole run still completes). -/
theorem spec_C8 :
    report_lines [] = [noResultsMsg] ∧
    (∀ files, (collect_all_runs files).1 = [] →
        report_lines files = [noResultsMsg]) ∧
    (∀ pre post e err, e.content = .error err →
        (collect_all_runs (pre ++ e :: post)).1 =
          (collect_all_runs (pre ++ post)).1 ∧
        report_lines (pre ++ e :: post) = report_lines (pre ++ post)) := by
  have hempty : ∀ files, (collect_all_runs files).1 = [] →
      report_lines files = [noResultsMsg] := by
    intro files h
    unfold report_lines
    rw [h]
    rfl
  have hlocal : ∀ pre post e err, e.content = .error err →
      (collect_all_runs (pre ++ e :: post)).1 =
        (collect_all_runs (pre ++ post)).1 := by
    intro pre post e err h
    unfold collect_all_runs
    rw [List.foldl_append, List.foldl_append, List.foldl_cons]
    apply foldl_collectStep_fst
    rw [collectStep_error e err h]
  refine ⟨hempty [] rfl, hempty, ?_⟩
  intro pre post e err h
  refine ⟨hlocal pre post e err h, ?_⟩
  unfold report_lines
  rw [hlocal pre post e err h]

/-- Witness for C8: a scan that finds only one corrupt file still
reports, printing the no-results message. -/
theorem spec_C8_witness : report_lines [entryCorrupt] = [noResultsMsg] := by
  have h := (spec_C8.2.2 [] [] entryCorrupt (.ioError "boom") rfl).2
  simpa using h.trans spec_C8.1

/-! ### C3: a shape error during horizon extraction aborts the scan -/

/-- C3 (failing input): the good file alone yields its overall horizon
row, but scanning it together with the successfully parsed bad-shaped
file raises an uncaught `AttributeError` — the whole horizon scan
aborts and every row is lost, although the claim says no error in the
system (including horizon extraction) aborts the process. -/
theorem spec_C3 :
    errOf (collect_horizon_rows [entryHGood, entryHBad]) =
      some PyErr.attributeError ∧
    (collect_horizon_rows [entryHGood]).toOption.map
        (fun p => p.1.map (fun r => r.horizon)) = some [0] := by
  constructor
  · with_unfolding_all decide
  · with_unfolding_all decide

/-! ### C4: which keys produce horizon rows -/

/-- C4 is false as stated: this successfully parsed file produces no
horizon-0 row at all (there is no `"overall"` key), and it produces a
row (horizon 1) for `"horizon_1_2"`, which is not a well-formed
`"horizon_<integer>"` key. -/
theorem spec_C4_counterexample :
    (∃ kvs, entryC4.content = .ok (JVal.obj kvs)) ∧
    (collect_horizon_rows [entryC4]).toOption.map
        (fun p => p.1.map (fun r => r.horizon)) = some [1] ∧
    wellFormedHorizonKey "horizon_1_2" = false := by
  refine ⟨⟨_, rfl⟩, ?_, ?_⟩
  · with_unfolding_all decide
  · with_unfolding_all decide

theorem except_pure_bind {ε α β : Type} (a : α) (g : α → Except ε β) :
    (pure a >>= g) = g a := rfl

theorem except_ok_bind {ε α β : Type} (a : α) (g : α → Except ε β) :
    (Except.ok a >>= g) = g a := rfl

theorem except_pure_eq_ok {ε α : Type} (a : α) :
    (pure a : Except ε α) = Except.ok a := rfl

theorem horizon_fold_ok (m d s timeStr path : String) (ts : Rat) :
    ∀ (kvs : List (String × JVal)) (acc : List HRow),
      (∀ kv ∈ kvs, (horizonOfKey kv.1).isSome = true →
        ∃ fields, kv.2 = JVal.obj fields) →
      kvs.foldlM (horizonStep m d s timeStr path ts) acc =
        .ok (acc ++ kvs.filterMap (fun kv =>
          (horizonOfKey kv.1).map (hRowOf m d s timeStr path ts kv))) := by
  intro kvs
  induction kvs with
  | nil =>
    intro acc _
    simp only [List.foldlM_nil, List.filterMap_nil, List.append_nil]
    rfl
  | cons kv rest ih =>
    intro acc hvals
    rw [List.foldlM_cons]
    have ihrest := fun acc2 => ih acc2
      (fun kv2 h2 => hvals kv2 (List.mem_cons_of_mem _ h2))
    cases hk : horizonOfKey kv.1 with
    | none =>
      have hstep : horizonStep m d s timeStr path ts acc kv = pure acc := by
        unfold horizonStep
        rw [hk]
      rw [hstep, except_pure_bind, ihrest acc]
      simp [List.filterMap_cons, hk]
    | some h =>
      obtain ⟨fields, hf⟩ := hvals kv (List.mem_cons_self _ _) (by rw [hk]; rfl)
      have hstep : horizonStep m d s timeStr path ts acc kv =
          pure (acc ++ [hRowOf m d s timeStr path ts kv h]) := by
        simp [horizonStep, hk, hf, pyGetOpt, hRowOf, jGet, except_ok_bind,
          except_pure_eq_ok]
      rw [hstep, except_pure_bind, ihrest _]
      simp [List.filterMap_cons, hk]

/-- C4 (amended): for a successfully parsed result file at depth ≥ 2
whose recognized entries hold objects, the horizon scan emits exactly
one row per key recognized by `horizonOfKey` — one horizon-0 row per
`"overall"` key (none when the key is absent), and one row per key that
starts with `"horizon_"` and whose second `"_"`-token parses as an
integer, with that integer as the horizon (so the ill-formed
`"horizon_1_2"` yields horizon 1); every other key contributes no
row. -/
theorem spec_C4 (m s : String) (rest : List String)
    (kvs : List (String × JVal)) (path timeStr : String) (ts : Rat)
    (hvals : ∀ kv ∈ kvs, (horizonOfKey kv.1).isSome = true →
      ∃ fields, kv.2 = JVal.obj fields) :
    collect_horizon_rows
        [{ relParts := m :: s :: rest, content := .ok (.obj kvs), path := path,
           timeStr := timeStr, timestamp := ts }] =
      .ok (kvs.filterMap (fun kv => (horizonOfKey kv.1).map
            (hRowOf m (datasetOf s) s timeStr path ts kv)), []) ∧
    horizonOfKey "overall" = some 0 ∧
    (∀ key : String, key ≠ "overall" → key.startsWith "horizon_" = false →
      horizonOfKey key = none) ∧
    horizonOfKey "horizon_1_2" = some 1 := by
  refine ⟨?_, by with_unfolding_all decide, ?_, by with_unfolding_all decide⟩
  · show (horizonRowsOf m (datasetOf s) s timeStr path ts kvs >>= fun rows =>
        pure (([] : List HRow) ++ rows, ([] : List String))) >>=
        (fun st => pure st) = _
    unfold horizonRowsOf
    rw [horizon_fold_ok m (datasetOf s) s timeStr path ts kvs [] hvals,
      except_ok_bind, except_pure_bind]
    simp only [List.nil_append]
    rfl
  · intro key h1 h2
    unfold horizonOfKey
    rw [if_neg h1, if_pos (by simp [h2])]

/-- Witness for C4: on a concrete file the scan emits exactly the
horizon-0 row for `"overall"` and the horizon-2 row, ignoring
`"junk"`. -/
theorem spec_C4_witness :
    (collect_horizon_rows
        [{ relParts := "M" :: "D_1" :: ["h"], content := .ok (.obj kvsW),
           path := "w", timeStr := "t", timestamp := 0 }]).toOption.map
      (fun p => p.1.map (fun r => r.horizon)) = some [0, 2] := by
  have hv : ∀ kv ∈ kvsW, (horizonOfKey kv.1).isSome = true →
      ∃ fields, kv.2 = JVal.obj fields := by
    intro kv hkv
    fin_cases hkv
    · intro _
      exact ⟨_, rfl⟩
    · intro h
      exact absurd h (by with_unfolding_all decide)
    · intro _
      exact ⟨_, rfl⟩
  rw [(spec_C4 "M" "D_1" ["h"] kvsW "w" "t" 0 hv).1]
  with_unfolding_all decide

/-! ### C9: the renderer emits lines of one common length

First the padded-cell and line-length arithmetic, then the fact that
every computed column width dominates every cell placed in that
column. -/

theorem srep_length (c : Char) (n : Nat) : (srep c n).length = n := by
  simp [srep, String.length]

theorem pyLjust_length (s : String) (w : Nat) :
    (pyLjust s w).length = max w s.length := by
  simp only [pyLjust, String.length_append, srep_length]
  omega

theorem pyRjust_length (s : String) (w : Nat) :
    (pyRjust s w).length = max w s.length := by
  simp only [pyRjust, String.length_append, srep_length]
  omega

theorem pyCenter_length (s : String) (w : Nat) :
    (pyCenter s w).length = max w s.length := by
  simp only [pyCenter, String.length_append, srep_length]
  split_ifs <;> omega

theorem padCell_length (a : Align) (s : String) (w : Nat) :
    (padCell a s w).length = max w s.length := by
  cases a <;>
    simp [padCell, pyLjust_length, pyRjust_length, pyCenter_length]

theorem formatRowAux_length :
    ∀ (cells : List String) (ws : List Nat) (al : List Align),
      cells.length = ws.length → al.length = ws.length →
      (∀ i : Nat, (cells.getD i "").length ≤ ws.getD i 0) →
      (formatRowAux cells ws al).length = (ws.map (fun w => w + 3)).sum := by
  intro cells
  induction cells with
  | nil =>
    intro ws al h1 _ _
    have : ws = [] := by
      cases ws with
      | nil => rfl
      | cons w ws => simp at h1
    subst this
    rfl
  | cons c cs ih =>
    intro ws al h1 h2 hb
    cases ws with
    | nil => simp at h1
    | cons w ws' =>
      cases al with
      | nil => simp at h2
      | cons a al' =>
        simp only [formatRowAux, String.length_append, padCell_length,
          List.map_cons, List.sum_cons]
        have hc : c.length ≤ w := by
          have := hb 0
          simpa using this
        have hrest := ih ws' al' (by simpa using h1) (by simpa using h2)
          (fun i => by simpa using hb (i + 1))
        rw [hrest]
        have h1len : (" ".length : Nat) = 1 := rfl
        have h2len : (" |".length : Nat) = 2 := rfl
        rw [h1len, h2len]
        omega

theorem format_row_length (ws : List Nat) (cells : List String) (al : List Align)
    (h1 : cells.length = ws.length) (h2 : al.length = ws.length)
    (hb : ∀ i : Nat, (cells.getD i "").length ≤ ws.getD i 0) :
    (format_row ws cells al).length = 1 + (ws.map (fun w => w + 3)).sum := by
  simp only [format_row, String.length_append,
    formatRowAux_length cells ws al h1 h2 hb]
  rfl

theorem sum_map_add_const (l : List Nat) (c : Nat) :
    (l.map (fun w => w + c)).sum = l.sum + c * l.length := by
  induction l with
  | nil => simp
  | cons x l ih =>
    simp only [List.map_cons, List.sum_cons, List.length_cons, ih]
    ring

theorem joinPlus_length :
    ∀ parts : List String, parts ≠ [] →
      (joinPlus parts).length = (parts.map String.length).sum + (parts.length - 1) := by
  intro parts
  induction parts with
  | nil => intro h; exact absurd rfl h
  | cons s rest ih =>
    intro _
    cases rest with
    | nil => simp [joinPlus]
    | cons t rest' =>
      have := ih (by simp)
      simp only [joinPlus, String.length_append, this]
      have h1 : ("+".length : Nat) = 1 := rfl
      simp only [h1, List.map_cons, List.sum_cons, List.length_cons]
      omega

theorem border_line_length (ws : List Nat) (h : ws ≠ []) :
    (border_line ws).length = 1 + (ws.map (fun w => w + 3)).sum := by
  unfold border_line
  have hne : ws.map (fun w => srep '-' (w + 2)) ≠ [] := by
    simpa using h
  simp only [String.length_append, joinPlus_length _ hne, List.map_map]
  have hmm : (ws.map (String.length ∘ fun w => srep '-' (w + 2))) =
      ws.map (fun w => w + 2) := by
    apply List.map_congr_left
    intro w _
    simp [srep_length]
  rw [hmm, sum_map_add_const, sum_map_add_const, List.length_map]
  have h1 : ("+".length : Nat) = 1 := rfl
  rw [h1]
  have : 1 ≤ ws.length := by
    cases ws with
    | nil => exact absurd rfl h
    | cons a l => simp
  omega

theorem bump_length (w : List Nat) (j v : Nat) : (bump w j v).length = w.length := by
  simp [bump]

theorem getD_le_bump (w : List Nat) (j v i : Nat) :
    w.getD i 0 ≤ (bump w j v).getD i 0 := by
  unfold bump
  by_cases hij : i = j
  · subst hij
    by_cases hi : i < w.length
    · simp [List.getD_eq_getElem?_getD, List.getElem?_set_self hi]
    · rw [List.set_eq_of_length_le (le_of_not_lt hi)]
  · simp [List.getD_eq_getElem?_getD, List.getElem?_set_ne (fun h => hij h.symm)]

theorem le_bump_self (w : List Nat) (j v : Nat) (h : j < w.length) :
    v ≤ (bump w j v).getD j 0 := by
  unfold bump
  simp [List.getD_eq_getElem?_getD, List.getElem?_set_self h]

theorem foldl_getD_mono {β : Type} (step : List Nat → β → List Nat)
    (hmono : ∀ w b i, w.getD i 0 ≤ (step w b).getD i 0) :
    ∀ (l : List β) (w : List Nat) (i : Nat),
      w.getD i 0 ≤ (l.foldl step w).getD i 0 := by
  intro l
  induction l with
  | nil => intro w i; simp
  | cons b l ih =>
    intro w i
    exact le_trans (hmono w b i) (ih (step w b) i)

theorem foldl_length_stable {β : Type} (step : List Nat → β → List Nat)
    (hlen : ∀ w b, (step w b).length = w.length) :
    ∀ (l : List β) (w : List Nat), (l.foldl step w).length = w.length := by
  intro l
  induction l with
  | nil => intro w; rfl
  | cons b l ih =>
    intro w
    rw [List.foldl_cons, ih, hlen]

theorem foldl_contrib {β : Type} (step : List Nat → β → List Nat)
    (hmono : ∀ w b i, w.getD i 0 ≤ (step w b).getD i 0)
    (hlen : ∀ w b, (step w b).length = w.length) (n : Nat) :
    ∀ (l : List β) (w : List Nat), w.length = n → ∀ b ∈ l, ∀ (i v : Nat),
      (∀ w' : List Nat, w'.length = n → v ≤ (step w' b).getD i 0) →
      v ≤ (l.foldl step w).getD i 0 := by
  intro l
  induction l with
  | nil => intro w _ b hb; exact absurd hb (List.not_mem_nil b)
  | cons x l ih =>
    intro w hw b hb i v hcon
    rcases List.mem_cons.mp hb with rfl | hb'
    · rw [List.foldl_cons]
      exact le_trans (hcon w hw) (foldl_getD_mono step hmono l (step w b) i)
    · rw [List.foldl_cons]
      exact ih (step w x) (by rw [hlen, hw]) b hb' i v hcon

theorem detailWidthStep_length (w : List Nat) (row : DetailRow) :
    (detailWidthStep w row).length = w.length := by
  simp [detailWidthStep, bump_length]

theorem detailWidthStep_mono (w : List Nat) (row : DetailRow) (i : Nat) :
    w.getD i 0 ≤ (detailWidthStep w row).getD i 0 := by
  unfold detailWidthStep
  exact le_trans (getD_le_bump _ _ _ _) (le_trans (getD_le_bump _ _ _ _)
    (le_trans (getD_le_bump _ _ _ _) (le_trans (getD_le_bump _ _ _ _)
      (getD_le_bump _ _ _ _))))

theorem detailWidthStep_contrib (w : List Nat) (row : DetailRow)
    (h5 : w.length = 5) :
    row.model.length ≤ (detailWidthStep w row).getD 0 0 ∧
    row.time.length ≤ (detailWidthStep w row).getD 1 0 ∧
    (optNumFixed 4 row.MAE).length ≤ (detailWidthStep w row).getD 2 0 ∧
    (optNumFixed 4 row.RMSE).length ≤ (detailWidthStep w row).getD 3 0 ∧
    (format_mape row.MAPE).length ≤ (detailWidthStep w row).getD 4 0 := by
  have hL : ∀ (u : List Nat) (j v : Nat), u.length = 5 → (bump u j v).length = 5 := by
    intro u j v h
    rw [bump_length, h]
  unfold detailWidthStep
  refine ⟨?_, ?_, ?_, ?_, ?_⟩
  · exact le_trans (le_bump_self _ _ _ (by omega))
      (le_trans (getD_le_bump _ _ _ _) (le_trans (getD_le_bump _ _ _ _)
        (le_trans (getD_le_bump _ _ _ _) (getD_le_bump _ _ _ _))))
  · exact le_trans (le_bump_self _ _ _ (by rw [hL _ _ _ h5]; omega))
      (le_trans (getD_le_bump _ _ _ _) (le_trans (getD_le_bump _ _ _ _)
        (getD_le_bump _ _ _ _)))
  · exact le_trans (le_bump_self _ _ _ (by rw [hL _ _ _ (hL _ _ _ h5)]; omega))
      (le_trans (getD_le_bump _ _ _ _) (getD_le_bump _ _ _ _))
  · exact le_trans
      (le_bump_self _ _ _ (by rw [hL _ _ _ (hL _ _ _ (hL _ _ _ h5))]; omega))
      (getD_le_bump _ _ _ _)
  · exact le_bump_self _ _ _
      (by rw [hL _ _ _ (hL _ _ _ (hL _ _ _ (hL _ _ _ h5)))]; omega)

theorem detail_widths_header (rows : List DetailRow) :
    ∀ i : Nat, (detailHeaders.getD i "").length ≤
      (detail_col_widths rows).getD i 0 := by
  intro i
  unfold detail_col_widths
  refine le_trans ?_
    (foldl_getD_mono detailWidthStep detailWidthStep_mono rows _ i)
  match i with
  | 0 => decide
  | 1 => decide
  | 2 => decide
  | 3 => decide
  | 4 => decide
  | n + 5 =>
    rw [List.getD_eq_default, List.getD_eq_default]
    · simp
    · simp [detailHeaders]
    · simp [detailHeaders]

theorem detail_widths_row (rows : List DetailRow) (row : DetailRow)
    (hrow : row ∈ rows) :
    ∀ i : Nat, ((detail_row_cells row).getD i "").length ≤
      (detail_col_widths rows).getD i 0 := by
  intro i
  have hinit : (detailHeaders.map String.length).length = 5 := by
    simp [detailHeaders]
  unfold detail_col_widths
  match i with
  | 0 =>
    exact foldl_contrib detailWidthStep detailWidthStep_mono
      detailWidthStep_length 5 rows _ hinit row hrow 0 _
      (fun w' hw' => (detailWidthStep_contrib w' row hw').1)
  | 1 =>
    exact foldl_contrib detailWidthStep detailWidthStep_mono
      detailWidthStep_length 5 rows _ hinit row hrow 1 _
      (fun w' hw' => (detailWidthStep_contrib w' row hw').2.1)
  | 2 =>
    exact foldl_contrib detailWidthStep detailWidthStep_mono
      detailWidthStep_length 5 rows _ hinit row hrow 2 _
      (fun w' hw' => (detailWidthStep_contrib w' row hw').2.2.1)
  | 3 =>
    exact foldl_contrib detailWidthStep detailWidthStep_mono
      detailWidthStep_length 5 rows _ hinit row hrow 3 _
      (fun w' hw' => (detailWidthStep_contrib w' row hw').2.2.2.1)
  | 4 =>
    exact foldl_contrib detailWidthStep detailWidthStep_mono
      detailWidthStep_length 5 rows _ hinit row hrow 4 _
      (fun w' hw' => (detailWidthStep_contrib w' row hw').2.2.2.2)
  | n + 5 =>
    rw [List.getD_eq_default]
    · simp
    · simp [detail_row_cells]

theorem detail_line_length (all_runs : List (AggKey × List Run)) (d : String)
    (line : String) (hline : line ∈ detail_table_lines all_runs d) :
    line.length =
      1 + ((detail_col_widths (sorted_detail_rows all_runs d)).map
        (fun w => w + 3)).sum := by
  unfold detail_table_lines at hline
  set rows := sorted_detail_rows all_runs d with hrows
  set W := detail_col_widths rows with hW
  have hlen5 : W.length = 5 := by
    rw [hW]
    unfold detail_col_widths
    rw [foldl_length_stable detailWidthStep detailWidthStep_length]
    simp [detailHeaders]
  have hWne : W ≠ [] := by
    intro h
    rw [h] at hlen5
    simp at hlen5
  simp only [List.cons_append, List.nil_append, List.mem_cons, List.mem_append,
    List.mem_map, List.mem_singleton] at hline
  rcases hline with rfl | rfl | rfl | ⟨row, hrow, rfl⟩ | rfl | h0
  · exact border_line_length W hWne
  · refine format_row_length W detailHeaders _ ?_ ?_ (detail_widths_header rows)
    · rw [hlen5]
      rfl
    · rw [hlen5]
      rfl
  · exact border_line_length W hWne
  · refine format_row_length W (detail_row_cells row) _ ?_ ?_
      (detail_widths_row rows row hrow)
    · rw [hlen5]
      rfl
    · rw [hlen5]
      rfl
  · exact border_line_length W hWne
  · exact absurd h0 (List.not_mem_nil _)

theorem sumHdrStep_length (w : List Nat) (did : Nat × String) :
    (sumHdrStep w did).length = w.length := by
  simp [sumHdrStep, bump_length]

theorem sumHdrStep_mono (w : List Nat) (did : Nat × String) (i : Nat) :
    w.getD i 0 ≤ (sumHdrStep w did).getD i 0 := by
  unfold sumHdrStep
  exact le_trans (getD_le_bump _ _ _ _)
    (le_trans (getD_le_bump _ _ _ _) (getD_le_bump _ _ _ _))

theorem sumValStep_length (datasets : List String) (w : List Nat)
    (kv : AggKey × (String × String × String)) :
    (sumValStep datasets w kv).length = w.length := by
  simp [sumValStep, bump_length]

theorem sumValStep_mono (datasets : List String) (w : List Nat)
    (kv : AggKey × (String × String × String)) (i : Nat) :
    w.getD i 0 ≤ (sumValStep datasets w kv).getD i 0 := by
  unfold sumValStep
  exact le_trans (getD_le_bump _ _ _ _)
    (le_trans (getD_le_bump _ _ _ _) (getD_le_bump _ _ _ _))

theorem sumHdrStep_contrib (w : List Nat) (did : Nat × String) (Dlen : Nat)
    (hw : w.length = 1 + 3 * Dlen) (hdi : did.1 < Dlen) :
    max "MAE".length did.2.length ≤ (sumHdrStep w did).getD (1 + 3 * did.1) 0 ∧
    "RMSE".length ≤ (sumHdrStep w did).getD (1 + 3 * did.1 + 1) 0 ∧
    "MAPE".length ≤ (sumHdrStep w did).getD (1 + 3 * did.1 + 2) 0 := by
  have hL : ∀ (u : List Nat) (j v : Nat), u.length = 1 + 3 * Dlen →
      (bump u j v).length = 1 + 3 * Dlen := by
    intro u j v h
    rw [bump_length, h]
  unfold sumHdrStep
  set w1 := bump w (1 + 3 * did.1) (max "MAE".length did.2.length) with hw1
  set w2 := bump w1 (1 + 3 * did.1 + 1) "RMSE".length with hw2
  have hw1len : w1.length = 1 + 3 * Dlen := by rw [hw1, bump_length, hw]
  have hw2len : w2.length = 1 + 3 * Dlen := by rw [hw2, bump_length, hw1len]
  refine ⟨?_, ?_, ?_⟩
  · refine le_trans
      (le_bump_self w (1 + 3 * did.1) (max "MAE".length did.2.length)
        (by rw [hw]; omega)) ?_
    exact le_trans (getD_le_bump _ _ _ _) (getD_le_bump _ _ _ _)
  · refine le_trans
      (le_bump_self w1 (1 + 3 * did.1 + 1) "RMSE".length
        (by rw [hw1len]; omega)) ?_
    exact getD_le_bump _ _ _ _
  · exact le_bump_self w2 (1 + 3 * did.1 + 2) "MAPE".length
      (by rw [hw2len]; omega)

theorem sumValStep_contrib (datasets : List String) (w : List Nat)
    (kv : AggKey × (String × String × String))
    (hw : w.length = 1 + 3 * datasets.length)
    (hlt : datasets.indexOf kv.1.2 < datasets.length) :
    kv.2.1.length ≤
      (sumValStep datasets w kv).getD (1 + 3 * datasets.indexOf kv.1.2) 0 ∧
    kv.2.2.1.length ≤
      (sumValStep datasets w kv).getD (1 + 3 * datasets.indexOf kv.1.2 + 1) 0 ∧
    kv.2.2.2.length ≤
      (sumValStep datasets w kv).getD (1 + 3 * datasets.indexOf kv.1.2 + 2) 0 := by
  have hL : ∀ (u : List Nat) (j v : Nat), u.length = 1 + 3 * datasets.length →
      (bump u j v).length = 1 + 3 * datasets.length := by
    intro u j v h
    rw [bump_length, h]
  unfold sumValStep
  set w1 := bump w (1 + 3 * datasets.indexOf kv.1.2) kv.2.1.length with hw1
  set w2 := bump w1 (1 + 3 * datasets.indexOf kv.1.2 + 1) kv.2.2.1.length with hw2
  have hw1len : w1.length = 1 + 3 * datasets.length := by
    rw [hw1, bump_length, hw]
  have hw2len : w2.length = 1 + 3 * datasets.length := by
    rw [hw2, bump_length, hw1len]
  refine ⟨?_, ?_, ?_⟩
  · refine le_trans
      (le_bump_self w (1 + 3 * datasets.indexOf kv.1.2) kv.2.1.length
        (by rw [hw]; omega)) ?_
    exact le_trans (getD_le_bump _ _ _ _) (getD_le_bump _ _ _ _)
  · refine le_trans
      (le_bump_self w1 (1 + 3 * datasets.indexOf kv.1.2 + 1) kv.2.2.1.length
        (by rw [hw1len]; omega)) ?_
    exact getD_le_bump _ _ _ _
  · exact le_bump_self w2 (1 + 3 * datasets.indexOf kv.1.2 + 2) kv.2.2.2.length
      (by rw [hw2len]; omega)

theorem maxStrLen_le (l : List String) :
    ∀ a : Nat, ∀ s ∈ l, s.length ≤ l.foldl (fun x t => max x t.length) a := by
  induction l with
  | nil =>
    intro a s hs
    exact absurd hs (List.not_mem_nil s)
  | cons t l ih =>
    intro a s hs
    have hinit : ∀ b : Nat, b ≤ l.foldl (fun x t => max x t.length) b := by
      clear hs ih
      induction l with
      | nil => intro b; exact le_refl b
      | cons u l ih2 =>
        intro b
        exact le_trans (le_max_left b u.length) (ih2 (max b u.length))
    rcases List.mem_cons.mp hs with rfl | hs'
    · exact le_trans (le_max_right a s.length) (hinit (max a s.length))
    · exact ih (max a t.length) s hs'

theorem le_maxStrLen (l : List String) (s : String) (hs : s ∈ l) :
    s.length ≤ maxStrLen l :=
  maxStrLen_le l 0 s hs

theorem summary_widths_length (models datasets : List String)
    (vals : List (AggKey × (String × String × String))) :
    (summary_col_widths models datasets vals).length = 1 + 3 * datasets.length := by
  unfold summary_col_widths
  rw [foldl_length_stable (sumValStep datasets) (sumValStep_length datasets),
    foldl_length_stable sumHdrStep sumHdrStep_length, bump_length,
    List.length_replicate]

theorem summary_widths_col0 (models datasets : List String)
    (vals : List (AggKey × (String × String × String))) :
    "Model".length ≤ (summary_col_widths models datasets vals).getD 0 0 ∧
    "Dataset".length ≤ (summary_col_widths models datasets vals).getD 0 0 ∧
    "Metric".length ≤ (summary_col_widths models datasets vals).getD 0 0 ∧
    ∀ m ∈ models, m.length ≤ (summary_col_widths models datasets vals).getD 0 0 := by
  have hbase : max (max (max "Model".length "Dataset".length) "Metric".length)
      (maxStrLen models) ≤ (summary_col_widths models datasets vals).getD 0 0 := by
    unfold summary_col_widths
    refine le_trans ?_ (foldl_getD_mono (sumValStep datasets)
      (sumValStep_mono datasets) vals _ 0)
    refine le_trans ?_ (foldl_getD_mono sumHdrStep sumHdrStep_mono _ _ 0)
    exact le_bump_self _ _ _ (by simp)
  refine ⟨?_, ?_, ?_, ?_⟩
  · exact le_trans (by omega) hbase
  · exact le_trans (by omega) hbase
  · exact le_trans (by omega) hbase
  · intro m hm
    exact le_trans (le_trans (le_maxStrLen models m hm) (le_max_right _ _)) hbase

theorem mem_enum_get (l : List String) (q : Nat) (hq : q < l.length) :
    (q, l.get ⟨q, hq⟩) ∈ l.enum := by
  have hlen : q < l.enum.length := by
    simpa [List.enum, List.enumFrom_length] using hq
  have hmem := List.getElem_mem hlen
  have heq : l.enum[q] = (q, l.get ⟨q, hq⟩) := by
    show (l.enumFrom 0)[q] = _
    rw [List.getElem_enumFrom]
    simp
  rw [heq] at hmem
  exact hmem

theorem summary_widths_hdr (models datasets : List String)
    (vals : List (AggKey × (String × String × String)))
    (q : Nat) (hq : q < datasets.length) :
    max "MAE".length (datasets.get ⟨q, hq⟩).length ≤
      (summary_col_widths models datasets vals).getD (1 + 3 * q) 0 ∧
    "RMSE".length ≤
      (summary_col_widths models datasets vals).getD (1 + 3 * q + 1) 0 ∧
    "MAPE".length ≤
      (summary_col_widths models datasets vals).getD (1 + 3 * q + 2) 0 := by
  have hmem := mem_enum_get datasets q hq
  have hw1len : (bump (List.replicate (1 + 3 * datasets.length) 0) 0
      (max (max (max "Model".length "Dataset".length) "Metric".length)
        (maxStrLen models))).length = 1 + 3 * datasets.length := by
    rw [bump_length, List.length_replicate]
  have hcon := fun (w' : List Nat) (hw' : w'.length = 1 + 3 * datasets.length) =>
    sumHdrStep_contrib w' (q, datasets.get ⟨q, hq⟩) datasets.length hw' hq
  unfold summary_col_widths
  refine ⟨?_, ?_, ?_⟩
  · refine le_trans ?_ (foldl_getD_mono (sumValStep datasets)
      (sumValStep_mono datasets) vals _ (1 + 3 * q))
    exact foldl_contrib sumHdrStep sumHdrStep_mono sumHdrStep_length
      (1 + 3 * datasets.length) datasets.enum _ hw1len _ hmem (1 + 3 * q) _
      (fun w' hw' => (hcon w' hw').1)
  · refine le_trans ?_ (foldl_getD_mono (sumValStep datasets)
      (sumValStep_mono datasets) vals _ (1 + 3 * q + 1))
    exact foldl_contrib sumHdrStep sumHdrStep_mono sumHdrStep_length
      (1 + 3 * datasets.length) datasets.enum _ hw1len _ hmem (1 + 3 * q + 1) _
      (fun w' hw' => (hcon w' hw').2.1)
  · refine le_trans ?_ (foldl_getD_mono (sumValStep datasets)
      (sumValStep_mono datasets) vals _ (1 + 3 * q + 2))
    exact foldl_contrib sumHdrStep sumHdrStep_mono sumHdrStep_length
      (1 + 3 * datasets.length) datasets.enum _ hw1len _ hmem (1 + 3 * q + 2) _
      (fun w' hw' => (hcon w' hw').2.2)

theorem pySortedStr_nodup (l : List String) : (pySortedStr l).Nodup :=
  ((List.perm_insertionSort _ _).nodup_iff).mpr (List.nodup_dedup l)

theorem summary_widths_body (best : List (AggKey × Run))
    (models datasets : List String) (hnd : datasets.Nodup)
    (m : String) (hm : m ∈ models) (q : Nat) (hq : q < datasets.length) :
    (summary_value best m (datasets.get ⟨q, hq⟩)).1.length ≤
      (summary_col_widths models datasets
        (summary_values best models datasets)).getD (1 + 3 * q) 0 ∧
    (summary_value best m (datasets.get ⟨q, hq⟩)).2.1.length ≤
      (summary_col_widths models datasets
        (summary_values best models datasets)).getD (1 + 3 * q + 1) 0 ∧
    (summary_value best m (datasets.get ⟨q, hq⟩)).2.2.length ≤
      (summary_col_widths models datasets
        (summary_values best models datasets)).getD (1 + 3 * q + 2) 0 := by
  set d := datasets.get ⟨q, hq⟩ with hd
  have hidx : datasets.indexOf d = q := by
    rw [hd]
    exact List.indexOf_getElem hnd q hq
  have hmem : ((m, d), summary_value best m d) ∈
      summary_values best models datasets := by
    unfold summary_values
    refine List.mem_flatMap.mpr ⟨m, hm, ?_⟩
    exact List.mem_map.mpr ⟨d, List.get_mem datasets q hq, rfl⟩
  have hw2len : ((datasets.enum).foldl sumHdrStep
      (bump (List.replicate (1 + 3 * datasets.length) 0) 0
        (max (max (max "Model".length "Dataset".length) "Metric".length)
          (maxStrLen models)))).length = 1 + 3 * datasets.length := by
    rw [foldl_length_stable sumHdrStep sumHdrStep_length, bump_length,
      List.length_replicate]
  have hcon := fun (w' : List Nat)
      (hw' : w'.length = 1 + 3 * datasets.length) =>
    sumValStep_contrib datasets w' ((m, d), summary_value best m d) hw'
      (by rw [hidx]; exact hq)
  unfold summary_col_widths
  refine ⟨?_, ?_, ?_⟩
  · have := foldl_contrib (sumValStep datasets) (sumValStep_mono datasets)
      (sumValStep_length datasets) (1 + 3 * datasets.length)
      (summary_values best models datasets) _ hw2len _ hmem (1 + 3 * q) _
      (fun w' hw' => by simpa [hidx] using (hcon w' hw').1)
    exact this
  · have := foldl_contrib (sumValStep datasets) (sumValStep_mono datasets)
      (sumValStep_length datasets) (1 + 3 * datasets.length)
      (summary_values best models datasets) _ hw2len _ hmem (1 + 3 * q + 1) _
      (fun w' hw' => by simpa [hidx] using (hcon w' hw').2.1)
    exact this
  · have := foldl_contrib (sumValStep datasets) (sumValStep_mono datasets)
      (sumValStep_length datasets) (1 + 3 * datasets.length)
      (summary_values best models datasets) _ hw2len _ hmem (1 + 3 * q + 2) _
      (fun w' hw' => by simpa [hidx] using (hcon w' hw').2.2)
    exact this

theorem length_flatMap3 {α β : Type} (g : α → List β)
    (hg : ∀ a, (g a).length = 3) (l : List α) :
    (l.flatMap g).length = 3 * l.length := by
  induction l with
  | nil => simp
  | cons a l ih =>
    simp only [List.flatMap_cons, List.length_append, ih, hg, List.length_cons]
    ring

theorem getD_flatMap3 {α β : Type} (g : α → List β)
    (hg : ∀ a, (g a).length = 3) (dflt : β) :
    ∀ (l : List α) (q r : Nat) (hq : q < l.length), r < 3 →
      (l.flatMap g).getD (3 * q + r) dflt = (g (l.get ⟨q, hq⟩)).getD r dflt := by
  intro l
  induction l with
  | nil =>
    intro q r hq
    exact absurd hq (by simp)
  | cons a l ih =>
    intro q r hq hr
    cases q with
    | zero =>
      simp only [List.flatMap_cons, Nat.mul_zero, Nat.zero_add]
      rw [List.getD_append _ _ _ _ (by rw [hg]; exact hr)]
      rfl
    | succ q' =>
      simp only [List.flatMap_cons]
      rw [List.getD_append_right _ _ _ _ (by rw [hg]; omega)]
      have harith : 3 * (q' + 1) + r - (g a).length = 3 * q' + r := by
        rw [hg]
        omega
      rw [harith]
      exact ih q' r (by simpa using hq) hr

theorem summary_h1_bound (models datasets : List String)
    (vals : List (AggKey × (String × String × String))) :
    ∀ i : Nat, ((header1_cells datasets).getD i "").length ≤
      (summary_col_widths models datasets vals).getD i 0 := by
  intro i
  cases i with
  | zero => exact (summary_widths_col0 models datasets vals).2.1
  | succ j =>
    show ((datasets.flatMap (fun d => [d, "", ""])).getD j "").length ≤ _
    by_cases hq : j / 3 < datasets.length
    · have hr3 : j % 3 < 3 := Nat.mod_lt _ (by omega)
      have hw := summary_widths_hdr models datasets vals (j / 3) hq
      rw [show j = 3 * (j / 3) + j % 3 from by omega,
        getD_flatMap3 (fun d : String => [d, "", ""]) (fun a => rfl) ""
          datasets (j / 3) (j % 3) hq hr3]
      rcases (show j % 3 = 0 ∨ j % 3 = 1 ∨ j % 3 = 2 from by omega)
        with h0 | h1 | h2
      · rw [h0]
        rw [show 3 * (j / 3) + 0 + 1 = 1 + 3 * (j / 3) from by omega]
        exact le_trans (le_max_right _ _) hw.1
      · rw [h1]
        simp
      · rw [h2]
        simp
    · rw [List.getD_eq_default]
      · simp
      · rw [length_flatMap3 (fun d : String => [d, "", ""]) (fun a => rfl)]
        omega

theorem summary_h2_bound (models datasets : List String)
    (vals : List (AggKey × (String × String × String))) :
    ∀ i : Nat, ((header2_cells datasets).getD i "").length ≤
      (summary_col_widths models datasets vals).getD i 0 := by
  intro i
  cases i with
  | zero => exact (summary_widths_col0 models datasets vals).2.2.1
  | succ j =>
    show ((datasets.flatMap
      (fun _ => ["MAE", "RMSE", "MAPE"])).getD j "").length ≤ _
    by_cases hq : j / 3 < datasets.length
    · have hr3 : j % 3 < 3 := Nat.mod_lt _ (by omega)
      have hw := summary_widths_hdr models datasets vals (j / 3) hq
      rw [show j = 3 * (j / 3) + j % 3 from by omega,
        getD_flatMap3 (fun _ : String => ["MAE", "RMSE", "MAPE"])
          (fun a => rfl) "" datasets (j / 3) (j % 3) hq hr3]
      rcases (show j % 3 = 0 ∨ j % 3 = 1 ∨ j % 3 = 2 from by omega)
        with h0 | h1 | h2
      · rw [h0]
        rw [show 3 * (j / 3) + 0 + 1 = 1 + 3 * (j / 3) from by omega]
        exact le_trans (le_max_left _ _) hw.1
      · rw [h1]
        rw [show 3 * (j / 3) + 1 + 1 = 1 + 3 * (j / 3) + 1 from by omega]
        exact hw.2.1
      · rw [h2]
        rw [show 3 * (j / 3) + 2 + 1 = 1 + 3 * (j / 3) + 2 from by omega]
        exact hw.2.2
    · rw [List.getD_eq_default]
      · simp
      · rw [length_flatMap3 (fun _ : String => ["MAE", "RMSE", "MAPE"])
          (fun a => rfl)]
        omega

theorem summary_row_bound (best : List (AggKey × Run))
    (models datasets : List String) (hnd : datasets.Nodup)
    (m : String) (hm : m ∈ models) :
    ∀ i : Nat, ((summary_row_cells best datasets m).getD i "").length ≤
      (summary_col_widths models datasets
        (summary_values best models datasets)).getD i 0 := by
  intro i
  cases i with
  | zero =>
    exact (summary_widths_col0 models datasets
      (summary_values best models datasets)).2.2.2 m hm
  | succ j =>
    show ((datasets.flatMap (fun d =>
      [(summary_value best m d).1, (summary_value best m d).2.1,
        (summary_value best m d).2.2])).getD j "").length ≤ _
    by_cases hq : j / 3 < datasets.length
    · have hr3 : j % 3 < 3 := Nat.mod_lt _ (by omega)
      have hw := summary_widths_body best models datasets hnd m hm (j / 3) hq
      rw [show j = 3 * (j / 3) + j % 3 from by omega,
        getD_flatMap3 (fun d : String =>
            [(summary_value best m d).1, (summary_value best m d).2.1,
              (summary_value best m d).2.2])
          (fun a => rfl) "" datasets (j / 3) (j % 3) hq hr3]
      rcases (show j % 3 = 0 ∨ j % 3 = 1 ∨ j % 3 = 2 from by omega)
        with h0 | h1 | h2
      · rw [h0]
        rw [show 3 * (j / 3) + 0 + 1 = 1 + 3 * (j / 3) from by omega]
        exact hw.1
      · rw [h1]
        rw [show 3 * (j / 3) + 1 + 1 = 1 + 3 * (j / 3) + 1 from by omega]
        exact hw.2.1
      · rw [h2]
        rw [show 3 * (j / 3) + 2 + 1 = 1 + 3 * (j / 3) + 2 from by omega]
        exact hw.2.2
    · rw [List.getD_eq_default]
      · simp
      · rw [length_flatMap3 (fun d : String =>
            [(summary_value best m d).1, (summary_value best m d).2.1,
              (summary_value best m d).2.2]) (fun a => rfl)]
        omega

theorem summary_line_length (best : List (AggKey × Run)) (line : String)
    (hline : line ∈ summary_table_lines best) :
    line.length = 1 + ((summary_col_widths (ranked_models best)
      (datasets_of best)
      (summary_values best (ranked_models best) (datasets_of best))).map
        (fun w => w + 3)).sum := by
  unfold summary_table_lines at hline
  set models := ranked_models best with hms
  set datasets := datasets_of best with hds
  set vals := summary_values best models datasets with hvals
  set W := summary_col_widths models datasets vals with hW
  have hnd : datasets.Nodup := by
    rw [hds]
    unfold datasets_of
    exact pySortedStr_nodup _
  have hWlen : W.length = 1 + 3 * datasets.length := by
    rw [hW]
    exact summary_widths_length models datasets vals
  have hWne : W ≠ [] := by
    intro h
    rw [h] at hWlen
    simp only [List.length_nil] at hWlen
    omega
  have hcells1 : (header1_cells datasets).length = W.length := by
    unfold header1_cells
    rw [hWlen]
    simp only [List.length_cons,
      length_flatMap3 (fun d : String => [d, "", ""]) (fun a => rfl)]
    omega
  have hcells2 : (header2_cells datasets).length = W.length := by
    unfold header2_cells
    rw [hWlen]
    simp only [List.length_cons,
      length_flatMap3 (fun _ : String => ["MAE", "RMSE", "MAPE"])
        (fun a => rfl)]
    omega
  have halign : (List.replicate (1 + 3 * datasets.length) Align.center).length =
      W.length := by
    rw [hWlen, List.length_replicate]
  simp only [List.cons_append, List.nil_append, List.mem_cons, List.mem_append,
    List.mem_map, List.mem_singleton] at hline
  rcases hline with rfl | rfl | rfl | rfl | ⟨m, hm, rfl⟩ | rfl | h0
  · exact border_line_length W hWne
  · exact format_row_length W (header1_cells datasets) _ hcells1 halign
      (summary_h1_bound models datasets vals)
  · exact format_row_length W (header2_cells datasets) _ hcells2 halign
      (summary_h2_bound models datasets vals)
  · exact border_line_length W hWne
  · refine format_row_length W (summary_row_cells best datasets m) _ ?_ ?_
      (summary_row_bound best models datasets hnd m hm)
    · unfold summary_row_cells
      rw [hWlen]
      simp only [List.length_cons,
        length_flatMap3 (fun d : String =>
          [(summary_value best m d).1, (summary_value best m d).2.1,
            (summary_value best m d).2.2]) (fun a => rfl)]
      omega
    · rw [hWlen]
      simp only [List.length_cons, List.length_replicate]
      omega
  · exact border_line_length W hWne
  · exact absurd h0 (List.not_mem_nil _)

/-- C9: within one rendered table — the summary leaderboard or a
per-dataset detail table — every emitted line (borders, header rows and
data rows) has exactly the same character length, because every column
width is the running maximum of the lengths of its header and body
cells, so padding never truncates or overflows. -/
theorem spec_C9 :
    (∀ best : List (AggKey × Run), ∀ l₁ ∈ summary_table_lines best,
      ∀ l₂ ∈ summary_table_lines best, l₁.length = l₂.length) ∧
    (∀ all_runs : List (AggKey × List Run), ∀ d : String,
      ∀ l₁ ∈ detail_table_lines all_runs d,
        ∀ l₂ ∈ detail_table_lines all_runs d, l₁.length = l₂.length) := by
  constructor
  · intro best l1 h1 l2 h2
    rw [summary_line_length best l1 h1, summary_line_length best l2 h2]
  · intro all_runs d l1 h1 l2 h2
    rw [detail_line_length all_runs d l1 h1, detail_line_length all_runs d l2 h2]

/-- Witness for C9: the first two rendered lines of the example
leaderboard have equal length. -/
theorem spec_C9_witness :
    ((summary_table_lines exBest).getD 0 "").length =
      ((summary_table_lines exBest).getD 1 "").length :=
  spec_C9.1 exBest _ (by with_unfolding_all decide) _
    (by with_unfolding_all decide)
